import Mathlib

/-!
Verification of the ingestion-and-retrieval pipeline of the ultrawebaudit
repository against its specification.

Text is modelled as `List Char` (the character sequence of a JavaScript
string).  External collaborators (Google Drive download, text extraction,
OpenAI embedding, Pinecone upsert and query, chat completion) are modelled
as oracle functions supplied as parameters, exactly as the specification
classifies them: the definitions below translate only the orchestration,
chunking, retrieval and aggregation code that lives in this repository.
-/

namespace UltraWebAudit

/-! ## JavaScript string primitives -/

/-- Whitespace characters recognised by the JavaScript `\s` class and
`String.prototype.trim` (ASCII part; the sources never produce the exotic
Unicode spaces). -/
def isJsSpace (c : Char) : Bool :=
  c == ' ' || c == '\t' || c == '\n' || c == '\r' || c == '\x0b' || c == '\x0c'

/-- `String.prototype.trim`: drop whitespace from both ends. -/
def jsTrim (s : List Char) : List Char :=
  List.rdropWhile isJsSpace (s.dropWhile isJsSpace)

/-- JavaScript `a || b` on an optional string (`undefined`, `null` and the
empty string are falsy). -/
def jsOrS (a : Option String) (b : String) : String :=
  match a with
  | none => b
  | some s => if s = "" then b else s

/-- JavaScript `a || b` where both operands are optional strings. -/
def jsOrOpt (a b : Option String) : Option String :=
  match a with
  | none => b
  | some s => if s = "" then b else some s

/-- JavaScript truthiness of an optional string, as used by
`if (!file.id || !file.name) continue`. -/
def jsTruthy (a : Option String) : Bool :=
  match a with
  | none => false
  | some s => s ≠ ""

/-! ## Chunker (identical in `scripts/vectorize-drive.ts` and the
google-drive sync route): constants 2000 / 200 / minimum length 20. -/

def MAX_CHUNK_SIZE : Nat := 2000

def OVERLAP : Nat := 200

/-- Fragments shorter than this (after trim) are discarded as noise:
`filter((chunk) => chunk.trim().length > 20)`. -/
def MIN_CHUNK_LEN : Nat := 20

/-- State machine implementing `text.split(/\n\n+/)`: a separator is a
maximal run of two or more newlines.  `acc` is the current fragment in
reverse; when `inSep` is set, the machine is consuming the remainder of a
separator run. -/
def splitParasGo : List Char → List Char → Bool → List (List Char)
  | [], acc, _ => [acc.reverse]
  | c :: rest, acc, true =>
    if c = '\n' then splitParasGo rest acc true
    else splitParasGo rest [c] false
  | c :: rest, acc, false =>
    if c = '\n' ∧ rest.head? = some '\n' then
      acc.reverse :: splitParasGo rest [] true
    else
      splitParasGo rest (c :: acc) false

/-- `text.split(/\n\n+/)`. -/
def splitParas (s : List Char) : List (List Char) :=
  splitParasGo s [] false

/-- Sentence-terminal punctuation, the `[.!?]` class. -/
def isSentencePunct (c : Char) : Bool :=
  c == '.' || c == '!' || c == '?'

/-- State machine implementing `text.split(/[.!?]+\s+/)`: a separator is a
maximal run of sentence-terminal punctuation directly followed by at least
one whitespace character, and the whole separator is removed.  `acc` is the
current fragment in reverse; `pend` buffers a punctuation run (in reverse)
whose classification (separator or content) is not yet known; `skipWs` is
set while consuming the whitespace tail of a separator. -/
def splitSentencesGo : List Char → List Char → List Char → Bool → List (List Char)
  | [], acc, pend, _ => [(pend ++ acc).reverse]
  | c :: rest, acc, pend, true =>
    if isJsSpace c then splitSentencesGo rest acc pend true
    else if isSentencePunct c then splitSentencesGo rest [] [c] false
    else splitSentencesGo rest [c] [] false
  | c :: rest, acc, pend, false =>
    if isSentencePunct c then splitSentencesGo rest acc (c :: pend) false
    else if isJsSpace c ∧ pend ≠ [] then
      acc.reverse :: splitSentencesGo rest [] [] true
    else splitSentencesGo rest (c :: (pend ++ acc)) [] false

/-- `text.split(/[.!?]+\s+/)`. -/
def splitSentences (s : List Char) : List (List Char) :=
  splitSentencesGo s [] [] false

/-- The window start offsets of the chunker loop
`for (let i = 0; i < len; i += MAX_CHUNK_SIZE - OVERLAP)`. -/
def windowStarts (len : Nat) : List Nat :=
  (List.range ((len + (MAX_CHUNK_SIZE - OVERLAP) - 1) / (MAX_CHUNK_SIZE - OVERLAP))).map
    (fun k => k * (MAX_CHUNK_SIZE - OVERLAP))

/-- The sliding window of the chunker: for each start offset `i` emit
`s.slice(i, i + MAX_CHUNK_SIZE).trim()` whenever its length exceeds 20. -/
def slideWindows (s : List Char) : List (List Char) :=
  (windowStarts s.length).filterMap (fun i =>
    let w := jsTrim ((s.drop i).take MAX_CHUNK_SIZE)
    if w.length > MIN_CHUNK_LEN then some w else none)

/-- Per-fragment emission shared by the paragraph and sentence tiers: a
fragment of length at most `MAX_CHUNK_SIZE` is pushed unmodified, a longer
one is windowed. -/
def emitFragments : List (List Char) → List (List Char)
  | [] => []
  | f :: rest =>
    (if f.length ≤ MAX_CHUNK_SIZE then [f] else slideWindows f) ++ emitFragments rest

/-- Tier-1 fragments: paragraphs whose trimmed length exceeds 20. -/
def paragraphFragments (t : List Char) : List (List Char) :=
  (splitParas t).filter (fun c => (jsTrim c).length > MIN_CHUNK_LEN)

/-- Tier-2 fragments: sentences whose trimmed length exceeds 20. -/
def sentenceFragments (t : List Char) : List (List Char) :=
  (splitSentences t).filter (fun c => (jsTrim c).length > MIN_CHUNK_LEN)

/-- The three-tier chunker, as written identically in
`scripts/vectorize-drive.ts` and in the google-drive sync route. -/
def chunkText (t : List Char) : List (List Char) :=
  let paraF := paragraphFragments t
  if paraF.length > 0 then
    emitFragments paraF
  else
    let sentF := sentenceFragments t
    if sentF.length > 0 then
      emitFragments sentF
    else
      slideWindows t

/-! ## Data model of the ingestion pipeline -/

/-- A file as returned by the Google Drive listing
(`fields: files(id, name, mimeType, modifiedTime, ...)`); every field is
optional in the Drive API response. -/
structure DriveFile where
  id : Option String
  name : Option String
  mimeType : Option String
  modifiedTime : Option String
deriving DecidableEq, Repr

/-- Metadata stored with an upserted vector.  The script path also stores
`modifiedTime`; the sync route does not (it is `none` there). -/
structure VectorMeta where
  title : String
  text : List Char
  fileId : Option String
  chunkIndex : Nat
  mimeType : Option String
  modifiedTime : Option String
deriving DecidableEq, Repr

/-- A vector as passed to `upsertToPinecone`. -/
structure PineVector where
  id : String
  values : List Int
  metadata : VectorMeta
deriving DecidableEq, Repr

/-- Per-file outcome entry pushed onto `processedFiles`. -/
structure FileEntry where
  name : String
  chunks : Nat
  error : Option String
deriving DecidableEq, Repr

/-- The external collaborators (Drive download, text extraction, OpenAI
embedding, Pinecone upsert), supplied as oracles.  Failure of a call is an
`Except.error` carrying the thrown error message. -/
structure Env where
  getFileContent : String → Option String → Except String (List Char)
  extractTextFromDocument : List Char → String → Except String (List Char)
  getEmbedding : List Char → Except String (List Int)
  upsertToPinecone : List PineVector → Except String Unit

deriving instance DecidableEq for Except

/-- `errorMessage.substring(0, 100)` used by the script when recording a
caught error (character-level truncation). -/
def truncate100 (s : String) : String :=
  String.mk (s.data.take 100)

/-- Vector id used by the script path: the template literal
`${file.id}_chunk_${j}` in `scripts/vectorize-drive.ts`. -/
def scriptVectorId (fid : String) (j : Nat) : String :=
  fid ++ "_chunk_" ++ toString j

/-- Vector id used by the HTTP sync route: the template literal
`${file.id}-chunk-${chunkIndex}` in the google-drive sync route. -/
def routeVectorId (fid : String) (j : Nat) : String :=
  fid ++ "-chunk-" ++ toString j

/-! ## Script ingestion path (`scripts/vectorize-drive.ts`) -/

/-- The vector the script builds for chunk `j`. -/
def scriptVec (fid title : String) (mime mtime : Option String) (j : Nat)
    (c : List Char) (emb : List Int) : PineVector :=
  { id := scriptVectorId fid j
    values := emb
    metadata :=
      { title := title, text := c, fileId := some fid, chunkIndex := j
        mimeType := mime, modifiedTime := mtime } }

/-- Whether chunk `j` succeeds in the script path: its embedding call and
the single-vector upsert both return without throwing. -/
def scriptChunkSuccess (env : Env) (fid title : String) (mime mtime : Option String)
    (j : Nat) (c : List Char) : Bool :=
  match env.getEmbedding c with
  | .error _ => false
  | .ok emb => (env.upsertToPinecone [scriptVec fid title mime mtime j c emb]).isOk

/-- The per-chunk loop of the script: each chunk is embedded and upserted
inside its own `try`; a failure is logged and the loop continues.  Returns
the `successfulChunks` counter and the successfully upserted vectors. -/
def scriptChunkLoop (env : Env) (fid title : String) (mime mtime : Option String) :
    List (List Char) → Nat → Nat × List PineVector
  | [], _ => (0, [])
  | c :: rest, j =>
    let tail := scriptChunkLoop env fid title mime mtime rest (j + 1)
    match env.getEmbedding c with
    | .error _ => tail
    | .ok emb =>
      let v := scriptVec fid title mime mtime j c emb
      match env.upsertToPinecone [v] with
      | .error _ => tail
      | .ok _ => (tail.1 + 1, v :: tail.2)

/-- Per-file processing of the script path.  The TypeScript non-null
assertion `file.id!` is modelled by defaulting a missing id to the empty
string.  Returns the `processedFiles` entry and the upserted vectors. -/
def scriptProcessFile (env : Env) (file : DriveFile) : FileEntry × List PineVector :=
  let nm := jsOrS file.name "Unknown"
  let fid := file.id.getD ""
  match env.getFileContent fid file.mimeType with
  | .error e => ({ name := nm, chunks := 0, error := some (truncate100 e) }, [])
  | .ok buf =>
    if buf.length = 0 then
      ({ name := nm, chunks := 0, error := some "Empty file" }, [])
    else
      match env.extractTextFromDocument buf (jsOrS file.mimeType "text/plain") with
      | .error e => ({ name := nm, chunks := 0, error := some (truncate100 e) }, [])
      | .ok text =>
        if (jsTrim text).length = 0 then
          ({ name := nm, chunks := 0, error := some "No text extracted" }, [])
        else
          let chunks := chunkText text
          if chunks.length = 0 then
            ({ name := nm, chunks := 0, error := some "No valid chunks" }, [])
          else
            let r := scriptChunkLoop env fid (jsOrS file.name "Untitled")
              file.mimeType file.modifiedTime chunks 0
            ({ name := nm, chunks := r.1, error := none }, r.2)

/-- The script sync loop: every listed file is processed and gets exactly
one `processedFiles` entry. -/
def scriptSync (env : Env) : List DriveFile → List FileEntry × List PineVector
  | [] => ([], [])
  | f :: rest =>
    let r := scriptProcessFile env f
    let rs := scriptSync env rest
    (r.1 :: rs.1, r.2 ++ rs.2)

/-! ## HTTP sync route (google-drive sync `POST`) -/

/-- The vector the route builds for chunk `j`. -/
def routeVec (fid nm : String) (mime : Option String) (j : Nat)
    (c : List Char) (emb : List Int) : PineVector :=
  { id := routeVectorId fid j
    values := emb
    metadata :=
      { title := nm, text := c, fileId := some fid, chunkIndex := j
        mimeType := mime, modifiedTime := none } }

/-- The route embeds every chunk first, accumulating `vectors`; the first
embedding failure throws out of the per-file `try`. -/
def routeEmbedAll (env : Env) (fid nm : String) (mime : Option String) :
    List (List Char) → Nat → Except String (List PineVector)
  | [], _ => .ok []
  | c :: rest, j =>
    match env.getEmbedding c with
    | .error e => .error e
    | .ok emb =>
      match routeEmbedAll env fid nm mime rest (j + 1) with
      | .error e => .error e
      | .ok vs => .ok (routeVec fid nm mime j c emb :: vs)

/-- Per-file processing of the sync route, for a file whose `id` and
`name` passed the truthiness guard.  All chunks are embedded, then upserted
in one `upsertToPinecone(vectors)` call; any thrown error is caught at the
file level, recording the file with `chunks = 0` and the error message. -/
def routeProcessFile (env : Env) (fid nm : String) (mime : Option String) :
    FileEntry × List PineVector :=
  match env.getFileContent fid (some (jsOrS mime "text/plain")) with
  | .error e => ({ name := nm, chunks := 0, error := some e }, [])
  | .ok buf =>
    if buf.length = 0 then
      ({ name := nm, chunks := 0, error := some "File is empty (0 bytes)" }, [])
    else
      match env.extractTextFromDocument buf (jsOrS mime "text/plain") with
      | .error e => ({ name := nm, chunks := 0, error := some e }, [])
      | .ok text =>
        if (jsTrim text).length = 0 then
          ({ name := nm, chunks := 0, error := some "No text extracted" }, [])
        else
          let chunks := chunkText text
          if chunks.length = 0 then
            ({ name := nm, chunks := 0, error := some "No valid chunks created" }, [])
          else
            match routeEmbedAll env fid nm mime chunks 0 with
            | .error e => ({ name := nm, chunks := 0, error := some e }, [])
            | .ok vs =>
              match env.upsertToPinecone vs with
              | .error e => ({ name := nm, chunks := 0, error := some e }, [])
              | .ok _ => ({ name := nm, chunks := vs.length, error := none }, vs)

/-- The guard of `if (!file.id || !file.name) continue;`: a file is
processed only when both its id and its name are truthy. -/
def routeFileIncluded (f : DriveFile) : Bool :=
  jsTruthy f.id && jsTruthy f.name

/-- The route sync loop: a file failing the truthiness guard is skipped
without recording any entry. -/
def routeSyncFiles (env : Env) : List DriveFile → List FileEntry × List PineVector
  | [] => ([], [])
  | f :: rest =>
    let rs := routeSyncFiles env rest
    if routeFileIncluded f then
      let r := routeProcessFile env (f.id.getD "") (f.name.getD "") f.mimeType
      (r.1 :: rs.1, r.2 ++ rs.2)
    else
      rs

/-- Top level of the sync route: a failure of `listFilesInFolder` is the
only error propagated to the caller (HTTP 500); otherwise a report is
always returned. -/
def routeSyncTop (env : Env) (listing : Except String (List DriveFile)) :
    Except String (List FileEntry × List PineVector) :=
  match listing with
  | .error e => .error e
  | .ok files => .ok (routeSyncFiles env files)

/-! ## Retrieval engine (chat route `POST`) -/

/-- A match returned by `queryPinecone`; the metadata fields are of
uncertain shape and therefore all optional, as the route treats them
(`match.metadata?.title || ...`). -/
structure PineMatch where
  id : String
  score : Option ℚ
  title : Option String
  text : Option String
  fileId : Option String
  chunkIndex : Option Nat
deriving DecidableEq, Repr

/-- A citation in the `sources` array of the chat response. -/
structure ChatSource where
  id : String
  title : String
  text : String
  score : ℚ
  fileId : String
  chunkIndex : Nat
deriving DecidableEq, Repr

/-- The JSON body of a successful chat response. -/
structure ChatResult where
  response : String
  contextUsed : Bool
  sources : List ChatSource
  confidenceScore : ℚ
deriving DecidableEq, Repr

/-- `matches.length > 0 ? matches[0].score || 0 : 0`. -/
def confidenceOf (ms : List PineMatch) : ℚ :=
  match ms with
  | [] => 0
  | m :: _ => m.score.getD 0

/-- The context string: matches rendered as
`[title or "Document"]: text or id`, joined by blank lines. -/
def contextOf (ms : List PineMatch) : String :=
  String.intercalate "\n\n"
    (ms.map (fun m => "[" ++ jsOrS m.title "Document" ++ "]: " ++ jsOrS m.text m.id))

/-- The `sources` array, preserving the rank order of the matches. -/
def sourcesOf (ms : List PineMatch) : List ChatSource :=
  ms.map (fun m =>
    { id := m.id
      title := jsOrS m.title "Untitled Document"
      text := jsOrS m.text ""
      score := m.score.getD 0
      fileId := jsOrS m.fileId ""
      chunkIndex := m.chunkIndex.getD 0 })

/-- The chat route.  `embedRes` is the outcome of `getEmbedding(message)`
(its failure is fatal), `queryRes` the outcome of `queryPinecone` (its
failure is caught and treated as zero matches), `gen` the outcome of
`chatCompletion(messages, context)` as a function of the context string,
and `clean` the markdown-stripping postprocessing of the response text
(uninterpreted here: the claims do not concern its content). -/
def chatPOST (embedRes : Except String (List Int))
    (queryRes : Except String (List PineMatch))
    (gen : String → Except String String) (clean : String → String) :
    Except String ChatResult :=
  match embedRes with
  | .error e => .error e
  | .ok _ =>
    let found : List PineMatch :=
      match queryRes with
      | .ok ms => ms
      | .error _ => []
    match gen (contextOf found) with
    | .error e => .error e
    | .ok resp =>
      .ok
        { response := clean resp
          contextUsed := found.length > 0
          sources := sourcesOf found
          confidenceScore := confidenceOf found }

/-! ## Analysis aggregation (website analyze route `POST`) -/

/-- An issue as it appears in `allIssues`: either produced by the model
(all fields loosely typed and optional) or mapped from a heuristic
terminology hit. -/
structure Issue where
  tag : Option String
  description : Option String
  currentText : Option String
  outdatedText : Option String
  suggestedReplacement : Option String
  location : Option String
  severity : Option String
  priority : Option String
deriving DecidableEq, Repr

/-- A hit of `detectOutdatedTerminology`: an outdated term with its
sentence context, a severity tier and a location. -/
structure TermIssue where
  term : String
  context : String
  severity : String
  location : Option String
deriving DecidableEq, Repr

/-- The fields of the parsed (or fallback) model analysis that the
aggregation reads. -/
structure Analysis where
  risks : Option (List String)
  riskLevel : Option String
  issues : Option (List Issue)
deriving DecidableEq, Repr

/-- How the route maps a heuristic terminology hit into the issue list. -/
def heuristicToIssue (i : TermIssue) : Issue :=
  { tag := some "Outdated Terminology"
    description := some ("Found outdated term: " ++ i.term ++
      ". This should be updated to acknowledge Learn as current while promoting Ultra adoption.")
    currentText := some i.term
    outdatedText := some i.term
    suggestedReplacement :=
      some "Blackboard Ultra (or appropriate messaging acknowledging Learn as current)"
    location := i.location
    severity := some i.severity
    priority := some (if i.severity = "high" then "high" else "medium") }

/-- `allIssues`: the model issues followed by the mapped heuristic hits. -/
def allIssues (outdated : List TermIssue) (analysis : Analysis) : List Issue :=
  analysis.issues.getD [] ++ outdated.map heuristicToIssue

/-- The deduplication key:
`(i.currentText || i.outdatedText, i.location)`. -/
def issueKey (i : Issue) : Option String × Option String :=
  (jsOrOpt i.currentText i.outdatedText, i.location)

/-- `l.filter((issue, index) => index === l.findIndex(i => samekey))`:
keep an issue exactly when its index is the first index carrying its key. -/
def dedupAux (orig : List Issue) : List Issue → Nat → List Issue
  | [], _ => []
  | x :: xs, idx =>
    if orig.findIdx (fun j => issueKey j = issueKey x) = idx then
      x :: dedupAux orig xs (idx + 1)
    else
      dedupAux orig xs (idx + 1)

/-- `uniqueIssues` of the analyze route. -/
def dedupIssues (l : List Issue) : List Issue :=
  dedupAux l l 0

/-- `allRisks`: the model risk strings followed by one description per
unique issue. -/
def allRisks (outdated : List TermIssue) (analysis : Analysis) : List String :=
  analysis.risks.getD [] ++
    (dedupIssues (allIssues outdated analysis)).map
      (fun i => jsOrS i.description (i.tag.getD "undefined" ++ ": " ++ i.description.getD "undefined"))

/-- `overallRiskLevel` of the analyze route: seeded from
`analysis.riskLevel || (outdatedIssues.length > 0 ? "high" : "low")`, then
escalated by the severity / priority filters over `uniqueIssues` and the
length of `allRisks`. -/
def overallRiskLevel (outdated : List TermIssue) (analysis : Analysis) : String :=
  let unique := dedupIssues (allIssues outdated analysis)
  let risks := allRisks outdated analysis
  let highSeverityIssues := (unique.filter (fun i => i.severity = some "high")).length
  let mediumSeverityIssues := (unique.filter (fun i => i.severity = some "medium")).length
  let highPriorityIssues :=
    (unique.filter (fun i => i.priority = some "immediate" ∨ i.priority = some "high")).length
  let base := jsOrS analysis.riskLevel (if outdated.length > 0 then "high" else "low")
  if highSeverityIssues > 0 ∨ highPriorityIssues > 0 ∨ risks.length > 5 then "high"
  else if mediumSeverityIssues > 0 ∨ risks.length > 2 then "medium"
  else base

/-- The aggregate severity the specification describes, written from the
words of the spec for comparison with `overallRiskLevel`: thresholds over
the unique-issue count alone, with final fallback "low". -/
def specOverallSeverity (unique : List Issue) : String :=
  if (unique.any (fun i => i.severity = some "high")) ∨
      (unique.any (fun i => i.priority = some "immediate" ∨ i.priority = some "high")) ∨
      unique.length > 5 then "high"
  else if (unique.any (fun i => i.severity = some "medium")) ∨ unique.length > 2 then "medium"
  else "low"

/-! ## Analyze route: per-URL batch processing -/

/-- Outcome of the body of the per-URL `try` block, abstracting the
external fetch / embedding / model calls: the fetch may return `null`, any
step may throw (an `Error` with a message, or a non-`Error` value), or the
analysis completes with the heuristic hits and the model analysis. -/
inductive UrlStep where
  | fetchFail : UrlStep
  | threw : Option String → UrlStep
  | analyzed : List TermIssue → Analysis → UrlStep
deriving DecidableEq, Repr

/-- The slice of a per-URL result relevant to the batch contract. -/
structure UrlResult where
  url : String
  success : Bool
  error : Option String
  riskLevel : String
  issues : List Issue
deriving DecidableEq, Repr

/-- Processing of one URL: a failed fetch records a fixed error entry, a
thrown error records `error.message` (or "Unknown error" for a non-`Error`
value), and a completed analysis records the aggregated result. -/
def processUrl (step : String → UrlStep) (url : String) : UrlResult :=
  match step url with
  | .fetchFail =>
    { url := url, success := false, error := some "Failed to fetch page content"
      riskLevel := "high", issues := [] }
  | .threw e =>
    { url := url, success := false, error := some (e.getD "Unknown error")
      riskLevel := "high", issues := [] }
  | .analyzed outdated analysis =>
    { url := url, success := true, error := none
      riskLevel := overallRiskLevel outdated analysis
      issues := dedupIssues (allIssues outdated analysis) }

/-- The analyze route: request validation, then one sequential pass over
the URLs.  An error value is a `(status, message)` pair. -/
def analyzePOST (step : String → UrlStep) (urls : Option (List String)) :
    Except (Nat × String) (List UrlResult) :=
  match urls with
  | none => .error (400, "URLs array is required")
  | some us =>
    if us.length = 0 then .error (400, "URLs array is required")
    else if us.length > 100 then .error (400, "Maximum 100 URLs allowed")
    else .ok (us.map (processUrl step))

/-! ## Helper lemmas about trimming and windows -/

theorem jsTrim_length_le (s : List Char) : (jsTrim s).length ≤ s.length :=
  Nat.le_trans (List.rdropWhile_prefix isJsSpace (s.dropWhile isJsSpace)).length_le
    (List.dropWhile_sublist isJsSpace).length_le

theorem dropWhile_eq_cons_not {α : Type} (p : α → Bool) (l : List α) (x : α)
    (xs : List α) (h : l.dropWhile p = x :: xs) : p x = false := by
  induction l with
  | nil => simp [List.dropWhile] at h
  | cons a l ih =>
    rw [List.dropWhile_cons] at h
    split at h
    · exact ih h
    · rename_i hpa
      cases h
      simpa using hpa

theorem jsTrim_idem (s : List Char) : jsTrim (jsTrim s) = jsTrim s := by
  unfold jsTrim
  rcases h : List.rdropWhile isJsSpace (s.dropWhile isJsSpace) with _ | ⟨x, v⟩
  · simp [List.dropWhile]
  · have hpre : List.rdropWhile isJsSpace (s.dropWhile isJsSpace) <+: s.dropWhile isJsSpace :=
      List.rdropWhile_prefix isJsSpace (s.dropWhile isJsSpace)
    rw [h] at hpre
    obtain ⟨t, ht⟩ := hpre
    have ht2 : s.dropWhile isJsSpace = x :: (v ++ t) := by
      rw [← ht]; simp
    have hx : isJsSpace x = false := dropWhile_eq_cons_not _ _ _ _ ht2
    have hdw : List.dropWhile isJsSpace (x :: v) = x :: v := by
      simp [List.dropWhile, hx]
    rw [hdw, ← h, List.rdropWhile_idempotent]

theorem mem_slideWindows {s c : List Char} (h : c ∈ slideWindows s) :
    c.length ≤ MAX_CHUNK_SIZE ∧ MIN_CHUNK_LEN < (jsTrim c).length := by
  unfold slideWindows at h
  rw [List.mem_filterMap] at h
  obtain ⟨i, _, hi⟩ := h
  simp only at hi
  split at hi
  · rename_i hlen
    obtain rfl : jsTrim ((s.drop i).take MAX_CHUNK_SIZE) = c := by
      exact Option.some.inj hi
    refine ⟨?_, ?_⟩
    · exact Nat.le_trans (jsTrim_length_le _)
        (by simp [Nat.min_le_left MAX_CHUNK_SIZE (s.drop i).length])
    · rwa [jsTrim_idem]
  · exact absurd hi (by simp)

theorem mem_emitFragments {frags : List (List Char)} {c : List Char}
    (h : c ∈ emitFragments frags) :
    ∃ f ∈ frags, (f.length ≤ MAX_CHUNK_SIZE ∧ c = f) ∨
      (MAX_CHUNK_SIZE < f.length ∧ c ∈ slideWindows f) := by
  induction frags with
  | nil => simp [emitFragments] at h
  | cons f rest ih =>
    simp only [emitFragments, List.mem_append] at h
    rcases h with h | h
    · refine ⟨f, List.mem_cons_self f rest, ?_⟩
      split at h
      · rename_i hle
        exact Or.inl ⟨hle, by simpa using h⟩
      · rename_i hgt
        exact Or.inr ⟨Nat.lt_of_not_le hgt, h⟩
    · obtain ⟨g, hg, hgc⟩ := ih h
      exact ⟨g, List.mem_cons_of_mem f hg, hgc⟩

/-! ## C3 and C4: chunker tier fallback and chunk size bounds -/

/-- C3: the chunker applies its three tiers in order and the first tier
whose split yields at least one fragment above the minimum length wins; the
emitted chunks come from that tier alone. -/
theorem chunk_tier_fallback (t : List Char) :
    (paragraphFragments t ≠ [] → chunkText t = emitFragments (paragraphFragments t)) ∧
    (paragraphFragments t = [] → sentenceFragments t ≠ [] →
      chunkText t = emitFragments (sentenceFragments t)) ∧
    (paragraphFragments t = [] → sentenceFragments t = [] →
      chunkText t = slideWindows t) := by
  refine ⟨fun h1 => ?_, fun h1 h2 => ?_, fun h1 h2 => ?_⟩
  · have : 0 < (paragraphFragments t).length := List.length_pos.mpr h1
    simp [chunkText, this]
  · have : 0 < (sentenceFragments t).length := List.length_pos.mpr h2
    simp [chunkText, h1, this]
  · simp [chunkText, h1, h2]

/-- C3 witness: a text whose paragraphs are all at most 20 characters but
which contains a long sentence fragment, so that the sentence tier is
selected. -/
theorem chunk_tier_fallback_witness :
    paragraphFragments "abcdefghij\n\nklmnopqrst\n\nuvwxyzabcd. x".toList = [] ∧
    sentenceFragments "abcdefghij\n\nklmnopqrst\n\nuvwxyzabcd. x".toList ≠ [] ∧
    chunkText "abcdefghij\n\nklmnopqrst\n\nuvwxyzabcd. x".toList =
      emitFragments (sentenceFragments "abcdefghij\n\nklmnopqrst\n\nuvwxyzabcd. x".toList) :=
  ⟨by decide, by decide,
    (chunk_tier_fallback _).2.1 (by decide) (by decide)⟩

/-- C4: every emitted chunk has length at most `MAX_CHUNK_SIZE` and its
trimmed length strictly exceeds the minimum viable length of 20. -/
theorem chunk_length_bounds (t : List Char) :
    ∀ c ∈ chunkText t, c.length ≤ MAX_CHUNK_SIZE ∧ MIN_CHUNK_LEN < (jsTrim c).length := by
  intro c hc
  unfold chunkText at hc
  simp only at hc
  split at hc
  case isTrue =>
    obtain ⟨f, hf, hfc⟩ := mem_emitFragments hc
    rcases hfc with ⟨hle, rfl⟩ | ⟨_, hw⟩
    · refine ⟨hle, ?_⟩
      unfold paragraphFragments at hf
      have := (List.mem_filter.mp hf).2
      simpa using this
    · exact mem_slideWindows hw
  case isFalse =>
    split at hc
    case isTrue =>
      obtain ⟨f, hf, hfc⟩ := mem_emitFragments hc
      rcases hfc with ⟨hle, rfl⟩ | ⟨_, hw⟩
      · refine ⟨hle, ?_⟩
        unfold sentenceFragments at hf
        have := (List.mem_filter.mp hf).2
        simpa using this
      · exact mem_slideWindows hw
    case isFalse =>
      exact mem_slideWindows hc

/-- Concrete input used by the C4 witness. -/
def c4text : List Char :=
  "this paragraph is longer than twenty characters".toList

/-- C4 witness: a short single-paragraph text is emitted as one chunk
within the bounds. -/
theorem chunk_length_bounds_witness :
    c4text ∈ chunkText c4text ∧
    c4text.length ≤ MAX_CHUNK_SIZE ∧ MIN_CHUNK_LEN < (jsTrim c4text).length :=
  ⟨by decide, chunk_length_bounds c4text c4text (by decide)⟩

/-! ## Helper lemmas about the issue deduplication -/

theorem dedupAux_shift (x : Issue) (xs : List Issue) :
    ∀ (ys : List Issue) (idx : Nat),
      dedupAux (x :: xs) ys (idx + 1) =
        (dedupAux xs ys idx).filter (fun a => decide (issueKey a ≠ issueKey x)) := by
  intro ys
  induction ys with
  | nil => intro idx; simp [dedupAux]
  | cons y ys ih =>
    intro idx
    by_cases hkey : issueKey x = issueKey y
    · have hfi : (x :: xs).findIdx (fun j => issueKey j = issueKey y) = 0 := by
        simp [List.findIdx_cons, hkey]
      by_cases hidx : xs.findIdx (fun j => issueKey j = issueKey y) = idx
      · simp only [dedupAux, hfi, hidx, if_true]
        rw [ih (idx + 1)]
        simp [List.filter_cons, hkey.symm]
      · simp only [dedupAux, hfi, hidx, if_false]
        exact ih (idx + 1)
    · have hfi : (x :: xs).findIdx (fun j => issueKey j = issueKey y) =
          xs.findIdx (fun j => issueKey j = issueKey y) + 1 := by
        simp [List.findIdx_cons, hkey]
      have hp : decide (issueKey y ≠ issueKey x) = true := by
        simp only [decide_eq_true_eq]
        exact fun h => hkey h.symm
      have hyx : ¬(issueKey y = issueKey x) := fun h => hkey h.symm
      by_cases hidx : xs.findIdx (fun j => issueKey j = issueKey y) = idx
      · simp only [dedupAux, hfi, hidx, if_true]
        rw [ih (idx + 1)]
        simp [List.filter_cons, hyx]
      · have hc1 : ¬(xs.findIdx (fun j => issueKey j = issueKey y) + 1 = idx + 1) := by
          omega
        simp only [dedupAux, hfi]
        rw [if_neg hc1, if_neg hidx]
        exact ih (idx + 1)

theorem dedupIssues_cons (x : Issue) (xs : List Issue) :
    dedupIssues (x :: xs) =
      x :: (dedupIssues xs).filter (fun a => decide (issueKey a ≠ issueKey x)) := by
  unfold dedupIssues
  have h0 : (x :: xs).findIdx (fun j => issueKey j = issueKey x) = 0 := by
    simp [List.findIdx_cons]
  show dedupAux (x :: xs) (x :: xs) 0 = _
  simp only [dedupAux, h0, if_true]
  rw [dedupAux_shift]

/-! ## C9: deduplication by (current text, location) key -/

theorem dedupIssues_pairwiseKeys (l : List Issue) :
    (dedupIssues l).Pairwise (fun a b => issueKey a ≠ issueKey b) := by
  induction l with
  | nil => simp [dedupIssues, dedupAux]
  | cons x xs ih =>
    rw [dedupIssues_cons]
    refine List.Pairwise.cons ?_ (ih.sublist (List.filter_sublist _))
    intro b hb
    have := (List.mem_filter.mp hb).2
    simp only [decide_eq_true_eq] at this
    exact fun hxb => this hxb.symm

theorem dedupIssues_find_first (l : List Issue) :
    ∀ i ∈ dedupIssues l, l.find? (fun j => decide (issueKey j = issueKey i)) = some i := by
  induction l with
  | nil => simp [dedupIssues, dedupAux]
  | cons x xs ih =>
    rw [dedupIssues_cons]
    intro i hi
    rcases List.mem_cons.mp hi with rfl | hi
    · simp [List.find?_cons]
    · have hmem := List.mem_filter.mp hi
      have hne : issueKey i ≠ issueKey x := by
        have := hmem.2
        simpa using this
      have hpx : decide (issueKey x = issueKey i) = false := by
        simp only [decide_eq_false_iff_not]
        exact fun h => hne h.symm
      simp only [List.find?_cons, hpx]
      exact ih i hmem.1

theorem dedupIssues_keys_complete (l : List Issue) :
    ∀ i ∈ l, ∃ j ∈ dedupIssues l, issueKey j = issueKey i := by
  induction l with
  | nil => simp
  | cons x xs ih =>
    intro i hi
    rw [dedupIssues_cons]
    rcases List.mem_cons.mp hi with rfl | hi
    · exact ⟨i, List.mem_cons_self _ _, rfl⟩
    · obtain ⟨j, hj, hjk⟩ := ih i hi
      by_cases hjx : issueKey j = issueKey x
      · exact ⟨x, List.mem_cons_self _ _, by rw [← hjx, hjk]⟩
      · exact ⟨j, List.mem_cons_of_mem _ (List.mem_filter.mpr ⟨hj, by simpa using hjx⟩), hjk⟩

/-- C9: the deduplicated issue list is pairwise key-distinct, each
surviving issue is the first occurrence of its key in the combined list,
and every key of the combined list is still represented. -/
theorem issue_dedup_first_wins (outdated : List TermIssue) (analysis : Analysis) :
    (dedupIssues (allIssues outdated analysis)).Pairwise
      (fun a b => issueKey a ≠ issueKey b) ∧
    (∀ i ∈ dedupIssues (allIssues outdated analysis),
      (allIssues outdated analysis).find? (fun j => decide (issueKey j = issueKey i)) = some i) ∧
    (∀ i ∈ allIssues outdated analysis,
      ∃ j ∈ dedupIssues (allIssues outdated analysis), issueKey j = issueKey i) :=
  ⟨dedupIssues_pairwiseKeys _, dedupIssues_find_first _, dedupIssues_keys_complete _⟩

/-- Scenario-D issues for the C9 witness: identical current text and
location, different descriptions. -/
def issueA9 : Issue :=
  { tag := some "Outdated Terminology", description := some "first description"
    currentText := some "Blackboard Learn", outdatedText := none
    suggestedReplacement := none, location := some "Sentence 1"
    severity := some "low", priority := none }

/-- Second scenario-D issue, sharing the key of `issueA9`. -/
def issueB9 : Issue :=
  { issueA9 with description := some "second description" }

/-- Model analysis carrying the two scenario-D issues. -/
def analysis9 : Analysis :=
  { risks := some [], riskLevel := none, issues := some [issueA9, issueB9] }

/-- C9 witness: scenario D at a concrete input — the duplicate-keyed
second issue is dropped, the first survives as the first occurrence. -/
theorem issue_dedup_first_wins_witness :
    dedupIssues (allIssues [] analysis9) = [issueA9] ∧
    issueB9 ∈ allIssues [] analysis9 ∧
    (∃ j ∈ dedupIssues (allIssues [] analysis9), issueKey j = issueKey issueB9) ∧
    (allIssues [] analysis9).find?
      (fun j => decide (issueKey j = issueKey issueA9)) = some issueA9 :=
  ⟨by decide, by decide,
    (issue_dedup_first_wins [] analysis9).2.2 issueB9 (by decide),
    (issue_dedup_first_wins [] analysis9).2.1 issueA9 (by decide)⟩

/-! ## C8: overall severity aggregation -/

theorem filter_length_pos_iff {α : Type} (p : α → Bool) (l : List α) :
    0 < (l.filter p).length ↔ ∃ x ∈ l, p x = true := by
  rw [List.length_pos, ne_eq, List.filter_eq_nil_iff]
  push_neg
  simp

/-- C8 counterexample input: the model analysis contributes six risk
strings, no issues, and its own risk level "low". -/
def cexAnalysis8 : Analysis :=
  { risks := some ["r1", "r2", "r3", "r4", "r5", "r6"]
    riskLevel := some "low", issues := some [] }

/-- C8 counterexample: with zero issues the claimed thresholds give "low",
but the code counts `allRisks` (model risk strings plus unique-issue
descriptions), so it returns "high". -/
theorem overall_severity_thresholds_cex :
    overallRiskLevel [] cexAnalysis8 = "high" ∧
    specOverallSeverity (dedupIssues (allIssues [] cexAnalysis8)) = "low" ∧
    ("high" : String) ≠ "low" := by
  refine ⟨by decide, by decide, by decide⟩

/-- Six distinct low-severity heuristic hits, for the count-based
escalation scenario. -/
def sixLowTerms : List TermIssue :=
  [{ term := "t1", context := "c", severity := "low", location := some "Sentence 1" },
   { term := "t2", context := "c", severity := "low", location := some "Sentence 2" },
   { term := "t3", context := "c", severity := "low", location := some "Sentence 3" },
   { term := "t4", context := "c", severity := "low", location := some "Sentence 4" },
   { term := "t5", context := "c", severity := "low", location := some "Sentence 5" },
   { term := "t6", context := "c", severity := "low", location := some "Sentence 6" }]

/-- A model analysis with no issues and no risk strings. -/
def emptyModelAnalysis : Analysis :=
  { risks := some [], riskLevel := none, issues := some [] }

/-- C8 amended: the escalation thresholds count `allRisks` (model risk
strings plus one description per unique issue), not the unique issues
alone, and when no threshold fires the result is the model analysis risk
level (or a heuristic-presence default), not "low".  Six low-severity
heuristic issues with an empty model analysis still escalate to "high". -/
theorem overall_severity_amended :
    (∀ (outdated : List TermIssue) (analysis : Analysis),
      overallRiskLevel outdated analysis =
        (if (∃ i ∈ dedupIssues (allIssues outdated analysis), i.severity = some "high") ∨
            (∃ i ∈ dedupIssues (allIssues outdated analysis),
              i.priority = some "immediate" ∨ i.priority = some "high") ∨
            (analysis.risks.getD []).length +
              (dedupIssues (allIssues outdated analysis)).length > 5
          then "high"
          else if (∃ i ∈ dedupIssues (allIssues outdated analysis),
                i.severity = some "medium") ∨
              (analysis.risks.getD []).length +
                (dedupIssues (allIssues outdated analysis)).length > 2
            then "medium"
            else jsOrS analysis.riskLevel (if outdated.length > 0 then "high" else "low"))) ∧
    overallRiskLevel sixLowTerms emptyModelAnalysis = "high" := by
  constructor
  · intro outdated analysis
    simp only [overallRiskLevel, allRisks, List.length_append, List.length_map]
    have e1 : (0 < ((dedupIssues (allIssues outdated analysis)).filter
          (fun i => i.severity = some "high")).length ∨
        0 < ((dedupIssues (allIssues outdated analysis)).filter
          (fun i => i.priority = some "immediate" ∨ i.priority = some "high")).length ∨
        5 < (analysis.risks.getD []).length +
          (dedupIssues (allIssues outdated analysis)).length) ↔
        ((∃ i ∈ dedupIssues (allIssues outdated analysis), i.severity = some "high") ∨
        (∃ i ∈ dedupIssues (allIssues outdated analysis),
          i.priority = some "immediate" ∨ i.priority = some "high") ∨
        5 < (analysis.risks.getD []).length +
          (dedupIssues (allIssues outdated analysis)).length) := by
      rw [filter_length_pos_iff, filter_length_pos_iff]
      simp
    have e2 : (0 < ((dedupIssues (allIssues outdated analysis)).filter
          (fun i => i.severity = some "medium")).length ∨
        2 < (analysis.risks.getD []).length +
          (dedupIssues (allIssues outdated analysis)).length) ↔
        ((∃ i ∈ dedupIssues (allIssues outdated analysis), i.severity = some "medium") ∨
        2 < (analysis.risks.getD []).length +
          (dedupIssues (allIssues outdated analysis)).length) := by
      rw [filter_length_pos_iff]
      simp
    exact if_congr e1 rfl (if_congr e2 rfl rfl)
  · decide

/-! ## C6 and C7: graceful degradation and confidence score -/

/-- C6: a failed index query behaves exactly like a query returning zero
matches — the response is produced with empty context, no sources,
confidence 0 and `contextUsed = false`, and the answer path still runs. -/
theorem retrieval_degrades_gracefully :
    (∀ (embedRes : Except String (List Int)) (e : String)
        (gen : String → Except String String) (clean : String → String),
      chatPOST embedRes (.error e) gen clean = chatPOST embedRes (.ok []) gen clean) ∧
    (∀ (v : List Int) (e : String)
        (gen : String → Except String String) (clean : String → String),
      chatPOST (.ok v) (.error e) gen clean =
        (gen "").map (fun r =>
          { response := clean r, contextUsed := false
            sources := [], confidenceScore := 0 })) := by
  constructor
  · intro embedRes e gen clean
    cases embedRes <;> rfl
  · intro v e gen clean
    have hi : "\n\n".intercalate ([] : List String) = "" := rfl
    cases hg : gen "" <;>
      simp [chatPOST, contextOf, sourcesOf, confidenceOf, Except.map, hi, hg]

/-- C7: the confidence score is the similarity score of the first match
and exactly 0 for an empty match list, and the chat response carries
exactly this value. -/
theorem confidence_top_match (ms : List PineMatch) :
    (ms = [] → confidenceOf ms = 0) ∧
    (∀ (m : PineMatch) (rest : List PineMatch) (s : ℚ),
      ms = m :: rest → m.score = some s → confidenceOf ms = s) ∧
    (∀ (v : List Int) (gen : String → Except String String)
        (clean : String → String) (res : ChatResult),
      chatPOST (.ok v) (.ok ms) gen clean = .ok res →
        res.confidenceScore = confidenceOf ms) := by
  refine ⟨fun h => by rw [h]; rfl, fun m rest s hm hs => by rw [hm]; simp [confidenceOf, hs], ?_⟩
  intro v gen clean res h
  simp only [chatPOST] at h
  cases hg : gen (contextOf ms) with
  | error e => rw [hg] at h; cases h
  | ok r =>
    rw [hg] at h
    cases h
    rfl

/-- The match used by the C7 witness. -/
def match7 : PineMatch :=
  { id := "v1", score := some (7 / 10), title := some "Doc"
    text := some "chunk text", fileId := some "f1", chunkIndex := some 0 }

/-- C7 witness: a single match with score 7/10 yields confidence 7/10. -/
theorem confidence_top_match_witness :
    [match7] = match7 :: [] ∧ match7.score = some (7 / 10) ∧
    confidenceOf [match7] = 7 / 10 :=
  ⟨rfl, rfl, (confidence_top_match [match7]).2.1 match7 [] (7 / 10) rfl rfl⟩

/-! ## C10: one result per URL in the analyze batch -/

theorem processUrl_url (step : String → UrlStep) (u : String) :
    (processUrl step u).url = u := by
  cases h : step u <;> simp [processUrl, h]

/-- C10: a valid batch (non-empty, at most 100 URLs) yields exactly one
result per input URL in input order; a failed URL is reported with
`success = false` and a non-empty error; an oversized batch is rejected
before any URL is processed. -/
theorem analyze_one_result_per_url (step : String → UrlStep) (urls : List String)
    (hmsg : ∀ u m, step u = .threw (some m) → m ≠ "") :
    (urls ≠ [] → urls.length ≤ 100 →
      analyzePOST step (some urls) = .ok (urls.map (processUrl step)) ∧
      (urls.map (processUrl step)).length = urls.length ∧
      (urls.map (processUrl step)).map (fun r => r.url) = urls ∧
      (∀ u ∈ urls, (step u = .fetchFail ∨ ∃ e, step u = .threw e) →
        (processUrl step u).success = false ∧
        ∃ m, (processUrl step u).error = some m ∧ m ≠ "")) ∧
    (urls.length > 100 →
      analyzePOST step (some urls) = .error (400, "Maximum 100 URLs allowed")) := by
  constructor
  · intro hne hlen
    refine ⟨?_, List.length_map _ _, ?_, ?_⟩
    · have h0 : ¬ urls.length = 0 := fun h => hne (List.length_eq_zero.mp h)
      have h100 : ¬ urls.length > 100 := by omega
      simp [analyzePOST, h0, h100]
    · rw [List.map_map]
      have hf : ((fun r => r.url) ∘ processUrl step) = fun u => u :=
        funext fun u => processUrl_url step u
      rw [hf]
      exact List.map_id urls
    · intro u _ hfail
      rcases hfail with hf | ⟨e, he⟩
      · simp [processUrl, hf]
      · rcases e with _ | m
        · simp [processUrl, he]
        · have := hmsg u m he
          simp [processUrl, he, this]
  · intro hgt
    have h0 : ¬ urls.length = 0 := by omega
    simp [analyzePOST, h0, hgt]

/-- The per-URL oracle of the C10 witness: one URL analyzes cleanly, one
fails to fetch, one throws. -/
def step10 (u : String) : UrlStep :=
  if u = "b" then .fetchFail
  else if u = "c" then .threw (some "boom")
  else .analyzed [] emptyModelAnalysis

/-- The URL batch of the C10 witness. -/
def urls10 : List String := ["a", "b", "c"]

theorem step10_msgs : ∀ u m, step10 u = .threw (some m) → m ≠ "" := by
  intro u m h
  unfold step10 at h
  split at h
  · cases h
  · split at h
    · injection h with h2
      injection h2 with h3
      subst h3
      decide
    · cases h

/-- C10 witness at a concrete three-URL batch with one fetch failure and
one thrown error. -/
theorem analyze_one_result_per_url_witness :
    urls10 ≠ [] ∧ urls10.length ≤ 100 ∧
    analyzePOST step10 (some urls10) = .ok (urls10.map (processUrl step10)) ∧
    (urls10.map (processUrl step10)).map (fun r => r.url) = urls10 ∧
    ((processUrl step10 "b").success = false ∧
      ∃ m, (processUrl step10 "b").error = some m ∧ m ≠ "") :=
  ⟨by decide, by decide,
    ((analyze_one_result_per_url step10 urls10 step10_msgs).1 (by decide) (by decide)).1,
    ((analyze_one_result_per_url step10 urls10 step10_msgs).1 (by decide) (by decide)).2.2.1,
    ((analyze_one_result_per_url step10 urls10 step10_msgs).1 (by decide) (by decide)).2.2.2
      "b" (by decide) (Or.inl (by decide))⟩

/-! ## Helper lemmas for the ingestion pipeline -/

theorem enumFrom_snd_mem {α : Type} :
    ∀ (l : List α) (j : Nat) (p : Nat × α), p ∈ List.enumFrom j l → p.2 ∈ l := by
  intro l
  induction l with
  | nil => simp
  | cons a l ih =>
    intro j p hp
    rw [List.enumFrom_cons] at hp
    rcases List.mem_cons.mp hp with rfl | hp
    · simp
    · exact List.mem_cons_of_mem _ (ih _ _ hp)

theorem enumFrom_map_apply {α β : Type} (f : Nat → β) :
    ∀ (l : List α) (j : Nat),
      (List.enumFrom j l).map (fun p => f p.1) = (List.range' j l.length).map f := by
  intro l
  induction l with
  | nil => intro j; simp
  | cons a l ih =>
    intro j
    simp only [List.enumFrom_cons, List.map_cons, List.length_cons, List.range'_succ]
    rw [ih]

theorem scriptChunkLoop_spec (env : Env) (fid title : String) (mime mtime : Option String) :
    ∀ (chunks : List (List Char)) (j : Nat),
      (scriptChunkLoop env fid title mime mtime chunks j).1 =
        ((List.enumFrom j chunks).filter
          (fun p => scriptChunkSuccess env fid title mime mtime p.1 p.2)).length ∧
      (scriptChunkLoop env fid title mime mtime chunks j).2.map (fun v => v.id) =
        ((List.enumFrom j chunks).filter
          (fun p => scriptChunkSuccess env fid title mime mtime p.1 p.2)).map
          (fun p => scriptVectorId fid p.1) := by
  intro chunks
  induction chunks with
  | nil => intro j; simp [scriptChunkLoop]
  | cons c rest ih =>
    intro j
    have ihj := ih (j + 1)
    cases h1 : env.getEmbedding c with
    | error e =>
      have hs : scriptChunkSuccess env fid title mime mtime j c = false := by
        simp [scriptChunkSuccess, h1]
      simp [scriptChunkLoop, List.enumFrom_cons, List.filter_cons, h1, hs, ihj.1, ihj.2]
    | ok emb =>
      cases h2 : env.upsertToPinecone [scriptVec fid title mime mtime j c emb] with
      | error e =>
        have hs : scriptChunkSuccess env fid title mime mtime j c = false := by
          simp [scriptChunkSuccess, h1, h2, Except.isOk, Except.toBool]
        simp only [scriptChunkLoop, h1, h2]
        simp [List.enumFrom_cons, List.filter_cons, hs, ihj.1, ihj.2]
      | ok u =>
        have hs : scriptChunkSuccess env fid title mime mtime j c = true := by
          simp [scriptChunkSuccess, h1, h2, Except.isOk, Except.toBool]
        simp only [scriptChunkLoop, h1, h2]
        simp [List.enumFrom_cons, List.filter_cons, hs, ihj.1, ihj.2, scriptVec]

theorem routeEmbedAll_ok_ids (env : Env) (fid nm : String) (mime : Option String) :
    ∀ (chunks : List (List Char)) (j : Nat) (vs : List PineVector),
      routeEmbedAll env fid nm mime chunks j = .ok vs →
      vs.map (fun v => v.id) = (List.enumFrom j chunks).map (fun p => routeVectorId fid p.1) := by
  intro chunks
  induction chunks with
  | nil =>
    intro j vs h
    simp only [routeEmbedAll] at h
    cases h
    simp
  | cons c rest ih =>
    intro j vs h
    simp only [routeEmbedAll] at h
    cases h1 : env.getEmbedding c with
    | error e => rw [h1] at h; cases h
    | ok emb =>
      rw [h1] at h
      cases h2 : routeEmbedAll env fid nm mime rest (j + 1) with
      | error e => rw [h2] at h; cases h
      | ok vs2 =>
        rw [h2] at h
        cases h
        simp only [List.enumFrom_cons, List.map_cons]
        rw [ih _ _ h2]
        rfl

theorem routeEmbedAll_error_embed (env : Env) (fid nm : String) (mime : Option String) :
    ∀ (chunks : List (List Char)) (j : Nat) (e : String),
      routeEmbedAll env fid nm mime chunks j = .error e →
      ∃ c ∈ chunks, env.getEmbedding c = .error e := by
  intro chunks
  induction chunks with
  | nil => intro j e h; simp only [routeEmbedAll] at h; cases h
  | cons c rest ih =>
    intro j e h
    simp only [routeEmbedAll] at h
    cases h1 : env.getEmbedding c with
    | error e2 =>
      rw [h1] at h
      cases h
      exact ⟨c, List.mem_cons_self _ _, h1⟩
    | ok emb =>
      rw [h1] at h
      cases h2 : routeEmbedAll env fid nm mime rest (j + 1) with
      | error e2 =>
        rw [h2] at h
        cases h
        obtain ⟨d, hd, hde⟩ := ih _ _ h2
        exact ⟨d, List.mem_cons_of_mem _ hd, hde⟩
      | ok vs2 => rw [h2] at h; cases h

/-- All oracle failures carry a non-empty thrown message. -/
def EnvErrorsNonempty (env : Env) : Prop :=
  (∀ f m e, env.getFileContent f m = .error e → e ≠ "") ∧
  (∀ b m e, env.extractTextFromDocument b m = .error e → e ≠ "") ∧
  (∀ c e, env.getEmbedding c = .error e → e ≠ "") ∧
  (∀ vs e, env.upsertToPinecone vs = .error e → e ≠ "")

theorem truncate100_ne_empty (e : String) (h : e ≠ "") : truncate100 e ≠ "" := by
  intro hc
  have hd := congrArg String.data hc
  have : e.data.take 100 = [] := hd
  rcases List.take_eq_nil_iff.mp this with h100 | hnil
  · cases h100
  · exact h (String.ext hnil)

/-- Shape of every per-file entry the route records: either no error, or
zero chunks together with a non-empty error message. -/
theorem routeProcessFile_shape (env : Env) (fid nm : String) (mime : Option String)
    (hne : EnvErrorsNonempty env) :
    (routeProcessFile env fid nm mime).1.error = none ∨
      ((routeProcessFile env fid nm mime).1.chunks = 0 ∧
        ∃ m, (routeProcessFile env fid nm mime).1.error = some m ∧ m ≠ "") := by
  obtain ⟨h1, h2, h3, h4⟩ := hne
  unfold routeProcessFile
  cases hb : env.getFileContent fid (some (jsOrS mime "text/plain")) with
  | error e => exact Or.inr ⟨rfl, e, rfl, h1 _ _ _ hb⟩
  | ok buf =>
    dsimp only
    by_cases hb0 : buf.length = 0
    · rw [if_pos hb0]
      exact Or.inr ⟨rfl, _, rfl, by decide⟩
    · rw [if_neg hb0]
      cases hx : env.extractTextFromDocument buf (jsOrS mime "text/plain") with
      | error e => exact Or.inr ⟨rfl, e, rfl, h2 _ _ _ hx⟩
      | ok text =>
        dsimp only
        by_cases ht0 : (jsTrim text).length = 0
        · rw [if_pos ht0]
          exact Or.inr ⟨rfl, _, rfl, by decide⟩
        · rw [if_neg ht0]
          by_cases hc0 : (chunkText text).length = 0
          · rw [if_pos hc0]
            exact Or.inr ⟨rfl, _, rfl, by decide⟩
          · rw [if_neg hc0]
            cases he : routeEmbedAll env fid nm mime (chunkText text) 0 with
            | error e =>
              obtain ⟨c, _, hce⟩ := routeEmbedAll_error_embed env fid nm mime _ _ _ he
              exact Or.inr ⟨rfl, e, rfl, h3 _ _ hce⟩
            | ok vs =>
              dsimp only
              cases hu : env.upsertToPinecone vs with
              | error e => exact Or.inr ⟨rfl, e, rfl, h4 _ _ hu⟩
              | ok u => exact Or.inl rfl

/-- Shape of every per-file entry the script records. -/
theorem scriptProcessFile_shape (env : Env) (file : DriveFile)
    (hne : EnvErrorsNonempty env) :
    (scriptProcessFile env file).1.error = none ∨
      ((scriptProcessFile env file).1.chunks = 0 ∧
        ∃ m, (scriptProcessFile env file).1.error = some m ∧ m ≠ "") := by
  obtain ⟨h1, h2, _, _⟩ := hne
  unfold scriptProcessFile
  dsimp only
  cases hb : env.getFileContent (file.id.getD "") file.mimeType with
  | error e => exact Or.inr ⟨rfl, _, rfl, truncate100_ne_empty e (h1 _ _ _ hb)⟩
  | ok buf =>
    dsimp only
    by_cases hb0 : buf.length = 0
    · rw [if_pos hb0]
      exact Or.inr ⟨rfl, _, rfl, by decide⟩
    · rw [if_neg hb0]
      cases hx : env.extractTextFromDocument buf (jsOrS file.mimeType "text/plain") with
      | error e => exact Or.inr ⟨rfl, _, rfl, truncate100_ne_empty e (h2 _ _ _ hx)⟩
      | ok text =>
        dsimp only
        by_cases ht0 : (jsTrim text).length = 0
        · rw [if_pos ht0]
          exact Or.inr ⟨rfl, _, rfl, by decide⟩
        · rw [if_neg ht0]
          by_cases hc0 : (chunkText text).length = 0
          · rw [if_pos hc0]
            exact Or.inr ⟨rfl, _, rfl, by decide⟩
          · rw [if_neg hc0]
            exact Or.inl rfl

theorem routeSyncFiles_entries (env : Env) :
    ∀ files, (routeSyncFiles env files).1 =
      (files.filter routeFileIncluded).map
        (fun f => (routeProcessFile env (f.id.getD "") (f.name.getD "") f.mimeType).1) := by
  intro files
  induction files with
  | nil => rfl
  | cons f rest ih =>
    by_cases hf : routeFileIncluded f = true
    · simp [routeSyncFiles, List.filter_cons, hf, ih]
    · simp only [Bool.not_eq_true] at hf
      simp [routeSyncFiles, List.filter_cons, hf, ih]

theorem scriptSync_length (env : Env) :
    ∀ files, (scriptSync env files).1.length = files.length := by
  intro files
  induction files with
  | nil => rfl
  | cons f rest ih => simp [scriptSync, ih]

/-! ## Concrete inputs for the pipeline counterexamples and witnesses -/

/-- First chunk of the two-paragraph test document. -/
def chunkA : List Char := List.replicate 25 'a'

/-- Second chunk of the two-paragraph test document. -/
def chunkB : List Char := List.replicate 25 'b'

/-- A document of two paragraphs that chunk to `[chunkA, chunkB]`. -/
def textC1 : List Char := chunkA ++ '\n' :: '\n' :: chunkB

/-- Oracles that fail the embedding of `chunkA` only. -/
def envC1 : Env :=
  { getFileContent := fun _ _ => .ok textC1
    extractTextFromDocument := fun b _ => .ok b
    getEmbedding := fun c => if c = chunkA then .error "embed fail" else .ok [1]
    upsertToPinecone := fun _ => .ok () }

/-- Oracles that never fail. -/
def envOk : Env :=
  { getFileContent := fun _ _ => .ok textC1
    extractTextFromDocument := fun b _ => .ok b
    getEmbedding := fun _ => .ok [2]
    upsertToPinecone := fun _ => .ok () }

/-- A listed file with an id but no name. -/
def unnamedFile : DriveFile :=
  { id := some "f1", name := none, mimeType := some "text/plain", modifiedTime := none }

/-- A listed file with both id and name. -/
def namedFile : DriveFile :=
  { id := some "f2", name := some "doc.txt", mimeType := some "text/plain"
    modifiedTime := none }

theorem envC1_nonempty : EnvErrorsNonempty envC1 := by
  unfold EnvErrorsNonempty
  refine ⟨?_, ?_, ?_, ?_⟩
  · exact fun _ _ _ h => nomatch h
  · exact fun _ _ _ h => nomatch h
  · intro c e h
    unfold envC1 at h
    dsimp only at h
    split at h
    · cases h
      decide
    · cases h
  · exact fun _ _ h => nomatch h

theorem envOk_nonempty : EnvErrorsNonempty envOk := by
  unfold EnvErrorsNonempty
  refine ⟨?_, ?_, ?_, ?_⟩
  · exact fun _ _ _ h => nomatch h
  · exact fun _ _ _ h => nomatch h
  · exact fun _ _ h => nomatch h
  · exact fun _ _ h => nomatch h

/-! ## C1: chunk-level failure isolation -/

/-- C1 counterexample: in the HTTP sync route, a failure embedding the
first chunk aborts the whole file — the second chunk, whose embedding
would succeed, is never upserted, and the file entry reports 0 chunks
instead of the 1 that succeeded under chunk-level isolation. -/
theorem route_chunk_failure_aborts_file_cex :
    chunkText textC1 = [chunkA, chunkB] ∧
    envC1.getEmbedding chunkA = .error "embed fail" ∧
    envC1.getEmbedding chunkB = .ok [1] ∧
    envC1.upsertToPinecone [] = .ok () ∧
    (routeProcessFile envC1 "f" "doc" (some "text/plain")).1 =
      { name := "doc", chunks := 0, error := some "embed fail" } ∧
    (routeProcessFile envC1 "f" "doc" (some "text/plain")).2 = [] ∧
    (scriptChunkLoop envC1 "f" "doc" (some "text/plain") none [chunkA, chunkB] 0).1 = 1 := by
  refine ⟨by decide, by decide, by decide, by decide, by decide, by decide, by decide⟩

/-- C1 amended: in the script path a chunk failure is isolated — the
successful-chunk count and the upserted ids are exactly those of the
chunks whose embedding and upsert both succeed; in the HTTP route path a
chunk embedding failure aborts the file, which is recorded with 0 chunks
and the error, and nothing of it is upserted. -/
theorem chunk_failure_isolated (env : Env) (fid title nm : String)
    (mime mtime : Option String) (chunks : List (List Char)) (j : Nat) :
    (scriptChunkLoop env fid title mime mtime chunks j).1 =
      ((List.enumFrom j chunks).filter
        (fun p => scriptChunkSuccess env fid title mime mtime p.1 p.2)).length ∧
    (scriptChunkLoop env fid title mime mtime chunks j).2.map (fun v => v.id) =
      ((List.enumFrom j chunks).filter
        (fun p => scriptChunkSuccess env fid title mime mtime p.1 p.2)).map
        (fun p => scriptVectorId fid p.1) ∧
    (∀ (e : String) (buf text : List Char),
      routeEmbedAll env fid nm mime chunks 0 = .error e →
      env.getFileContent fid (some (jsOrS mime "text/plain")) = .ok buf →
      buf.length ≠ 0 →
      env.extractTextFromDocument buf (jsOrS mime "text/plain") = .ok text →
      (jsTrim text).length ≠ 0 → chunkText text = chunks → chunks.length ≠ 0 →
      (routeProcessFile env fid nm mime).1 =
        { name := nm, chunks := 0, error := some e } ∧
      (routeProcessFile env fid nm mime).2 = []) := by
  refine ⟨(scriptChunkLoop_spec env fid title mime mtime chunks j).1,
    (scriptChunkLoop_spec env fid title mime mtime chunks j).2, ?_⟩
  intro e buf text he hb hb0 hx ht0 hct hc0
  unfold routeProcessFile
  rw [hb]
  dsimp only
  rw [if_neg hb0, hx]
  dsimp only
  rw [if_neg ht0, hct]
  rw [if_neg hc0, he]
  exact ⟨rfl, rfl⟩

/-- C1 witness: at the concrete failing-first-chunk input, the script
count equals the one successful chunk while the route aborts the file. -/
theorem chunk_failure_isolated_witness :
    (scriptChunkLoop envC1 "f" "doc" (some "text/plain") none [chunkA, chunkB] 0).1 =
      ((List.enumFrom 0 [chunkA, chunkB]).filter
        (fun p => scriptChunkSuccess envC1 "f" "doc" (some "text/plain") none p.1 p.2)).length ∧
    (routeProcessFile envC1 "f" "doc" (some "text/plain")).1 =
      { name := "doc", chunks := 0, error := some "embed fail" } ∧
    (routeProcessFile envC1 "f" "doc" (some "text/plain")).2 = [] :=
  ⟨(chunk_failure_isolated envC1 "f" "doc" "doc" (some "text/plain") none
      [chunkA, chunkB] 0).1,
    (chunk_failure_isolated envC1 "f" "doc" "doc" (some "text/plain") none
        [chunkA, chunkB] 0).2.2 "embed fail" textC1 textC1
      (by decide) (by decide) (by decide) (by decide) (by decide) (by decide) (by decide)⟩

/-! ## C2: one report entry per listed file -/

/-- C2 counterexample: the route silently skips a listed file whose name
is missing — the report has no entry for it. -/
theorem route_drops_unnamed_file_cex :
    (routeSyncFiles envOk [unnamedFile]).1.length = 0 ∧
    [unnamedFile].length = 1 := by
  exact ⟨rfl, rfl⟩

/-- C2 amended: the route records exactly one entry, in listing order, for
each listed file whose id and name are both present, silently skipping the
others (the script path records one entry for every listed file); every
recorded entry either has no error or has zero chunks and a non-empty
error message; and the operation propagates an error to the caller exactly
when the listing itself fails. -/
theorem sync_report_per_file (env : Env) (files : List DriveFile)
    (hne : EnvErrorsNonempty env) :
    (routeSyncFiles env files).1 =
      (files.filter routeFileIncluded).map
        (fun f => (routeProcessFile env (f.id.getD "") (f.name.getD "") f.mimeType).1) ∧
    (scriptSync env files).1.length = files.length ∧
    (∀ entry ∈ (routeSyncFiles env files).1,
      entry.error = none ∨ (entry.chunks = 0 ∧ ∃ m, entry.error = some m ∧ m ≠ "")) ∧
    (∀ entry ∈ (scriptSync env files).1,
      entry.error = none ∨ (entry.chunks = 0 ∧ ∃ m, entry.error = some m ∧ m ≠ "")) ∧
    (∀ e, routeSyncTop env (.error e) = .error e) ∧
    (∀ fs, routeSyncTop env (.ok fs) = .ok (routeSyncFiles env fs)) := by
  refine ⟨routeSyncFiles_entries env files, scriptSync_length env files, ?_, ?_,
    fun e => rfl, fun fs => rfl⟩
  · intro entry hentry
    rw [routeSyncFiles_entries env files] at hentry
    obtain ⟨f, _, rfl⟩ := List.mem_map.mp hentry
    exact routeProcessFile_shape env _ _ _ hne
  · intro entry hentry
    induction files with
    | nil => cases hentry
    | cons f rest ih =>
      rcases List.mem_cons.mp hentry with rfl | h
      · exact scriptProcessFile_shape env f hne
      · exact ih h

/-- C2 witness: with never-failing oracles, a two-file listing (one file
lacking a name) gets a script report of length two and a route report
whose entries match the filtered listing. -/
theorem sync_report_per_file_witness :
    EnvErrorsNonempty envOk ∧
    (scriptSync envOk [unnamedFile, namedFile]).1.length =
      [unnamedFile, namedFile].length ∧
    (routeSyncFiles envOk [unnamedFile, namedFile]).1 =
      ([unnamedFile, namedFile].filter routeFileIncluded).map
        (fun f => (routeProcessFile envOk (f.id.getD "") (f.name.getD "") f.mimeType).1) :=
  ⟨envOk_nonempty,
    (sync_report_per_file envOk [unnamedFile, namedFile] envOk_nonempty).2.1,
    (sync_report_per_file envOk [unnamedFile, namedFile] envOk_nonempty).1⟩

/-! ## C5: deterministic vector ids and idempotence -/

/-- C5 counterexample: the script and route id formats disagree, so
re-ingesting the same file through the other path does not overwrite the
previously written vectors. -/
theorem vector_id_formats_differ_cex :
    scriptVectorId "f" 0 = "f_chunk_0" ∧
    routeVectorId "f" 0 = "f-chunk-0" ∧
    scriptVectorId "f" 0 ≠ routeVectorId "f" 0 := by
  refine ⟨by decide, by decide, by decide⟩

theorem script_route_id_ne (g : String) (j : Nat) :
    scriptVectorId g j ≠ routeVectorId g j := by
  intro h
  have hd := congrArg String.data h
  simp only [scriptVectorId, routeVectorId, String.data_append] at hd
  rw [List.append_assoc, List.append_assoc] at hd
  have h2 := List.append_cancel_left hd
  simp at h2

/-- C5 amended: within each path the upserted vector ids are a pure
function of the file id and the chunk positions — with fully succeeding
oracles both paths produce exactly
`id ++ separator ++ chunk index` for indices `0 .. n-1`, so re-running the
same path on unchanged content yields the identical id list — but the two
paths use different separators, so no id written by one path equals the
id the other path writes for the same chunk. -/
theorem ingestion_ids_deterministic (env : Env) (fid title nm : String)
    (mime mtime : Option String) (chunks : List (List Char))
    (hemb : ∀ c ∈ chunks, (env.getEmbedding c).isOk = true)
    (hup : ∀ vs, (env.upsertToPinecone vs).isOk = true) :
    (scriptChunkLoop env fid title mime mtime chunks 0).2.map (fun v => v.id) =
      (List.range chunks.length).map (scriptVectorId fid) ∧
    (∀ vs, routeEmbedAll env fid nm mime chunks 0 = .ok vs →
      vs.map (fun v => v.id) = (List.range chunks.length).map (routeVectorId fid)) ∧
    (∀ (g : String) (j : Nat), scriptVectorId g j ≠ routeVectorId g j) := by
  have hall : ∀ p ∈ List.enumFrom 0 chunks,
      scriptChunkSuccess env fid title mime mtime p.1 p.2 = true := by
    intro p hp
    have hc : p.2 ∈ chunks := enumFrom_snd_mem chunks 0 p hp
    unfold scriptChunkSuccess
    cases h1 : env.getEmbedding p.2 with
    | error e =>
      have := hemb p.2 hc
      rw [h1] at this
      cases this
    | ok emb => exact hup _
  refine ⟨?_, ?_, script_route_id_ne⟩
  · rw [(scriptChunkLoop_spec env fid title mime mtime chunks 0).2,
      List.filter_eq_self.mpr hall, enumFrom_map_apply, ← List.range_eq_range']
  · intro vs hvs
    rw [routeEmbedAll_ok_ids env fid nm mime chunks 0 vs hvs, enumFrom_map_apply,
      ← List.range_eq_range']

/-- C5 witness: with never-failing oracles and two chunks, both paths
produce their two deterministic ids, and the formats differ at every
index. -/
theorem ingestion_ids_deterministic_witness :
    (∀ c ∈ [chunkA, chunkB], (envOk.getEmbedding c).isOk = true) ∧
    (scriptChunkLoop envOk "f" "t" none none [chunkA, chunkB] 0).2.map (fun v => v.id) =
      (List.range ([chunkA, chunkB] : List (List Char)).length).map (scriptVectorId "f") ∧
    scriptVectorId "f" 0 ≠ routeVectorId "f" 0 :=
  ⟨by decide,
    (ingestion_ids_deterministic envOk "f" "t" "t" none none [chunkA, chunkB]
      (by decide) (fun _ => rfl)).1,
    (ingestion_ids_deterministic envOk "f" "t" "t" none none [chunkA, chunkB]
      (by decide) (fun _ => rfl)).2.2 "f" 0⟩

end UltraWebAudit
